import Mathlib

/-!
Verification of the decorated-graph stabilizer engine
(`graphix/graphsim/basegraphstate.py`).

The engine is shallowly embedded: the mutable decorated graph becomes the
`GraphState` structure, every method of `BaseGraphState` becomes a function
from a `GraphState` to a new `GraphState` (paired with an `Except` value when
the Python method can raise), and the abstract backend operations (neighbor
query, local complementation, node removal) together with the local Clifford
tracker are modelled from the specification, since their code lives outside
the examined source file.
-/

namespace GraphSim

/-- The decorated graph: node identifiers in insertion order, an undirected
edge predicate, and the three per-node decoration flags `hollow`, `sign`,
`loop` of `BaseGraphState`. -/
structure GraphState where
  nodeList : List Nat
  edge : Nat → Nat → Bool
  hollow : Nat → Bool
  sign : Nat → Bool
  loop : Nat → Bool

/-- Pointwise update of a boolean node attribute. -/
def funUpdate (f : Nat → Bool) (n : Nat) (v : Bool) : Nat → Bool :=
  fun m => if m = n then v else f m

/-- Modelled from the spec: the backend operation `neighbors(node)`; returns
all nodes adjacent to `node`, in the backend's canonical iteration order
(here: node-list order). -/
def neighbors (g : GraphState) (n : Nat) : List Nat :=
  g.nodeList.filter (fun m => g.edge n m)

/-- `BaseGraphState.flip_fill`: toggles the `hollow` flag of a node. -/
def flip_fill (g : GraphState) (n : Nat) : GraphState :=
  { g with hollow := funUpdate g.hollow n (!g.hollow n) }

/-- `BaseGraphState.flip_sign`: toggles the `sign` flag of a node. -/
def flip_sign (g : GraphState) (n : Nat) : GraphState :=
  { g with sign := funUpdate g.sign n (!g.sign n) }

/-- `BaseGraphState.advance`: toggles the `loop` flag; clearing an existing
loop also flips the sign (the relation SS = Z). -/
def advance (g : GraphState) (n : Nat) : GraphState :=
  if g.loop n = true then
    flip_sign { g with loop := funUpdate g.loop n false } n
  else
    { g with loop := funUpdate g.loop n true }

/-- `BaseGraphState.h`: the H gate, equal to `flip_fill`. -/
def h (g : GraphState) (n : Nat) : GraphState :=
  flip_fill g n

/-- Modelled from the spec: the abstract backend operation
`local_complement(node)` — toggles the presence of every edge between two
distinct neighbors of `node`; the node's own flags and its incident edges are
untouched. -/
def local_complement (g : GraphState) (n : Nat) : GraphState :=
  let nbrs := neighbors g n
  { g with edge := fun a b =>
      if a ≠ b ∧ a ∈ nbrs ∧ b ∈ nbrs then !g.edge a b else g.edge a b }

/-- `BaseGraphState.s`: the S gate on the decorated graph, with the case
split on `hollow` and `loop` exactly as in the source. -/
def s (g : GraphState) (n : Nat) : GraphState :=
  if g.hollow n = true then
    if g.loop n = true then
      let g1 := flip_fill g n
      let g2 := { g1 with loop := funUpdate g1.loop n false }
      let g3 := local_complement g2 n
      (neighbors g3 n).foldl advance g3
    else
      let g1 := local_complement g n
      let g2 := (neighbors g1 n).foldl advance g1
      if g2.sign n = true then (neighbors g2 n).foldl flip_sign g2 else g2
  else
    advance g n

/-- `BaseGraphState.z`: the Z gate on the decorated graph. -/
def z (g : GraphState) (n : Nat) : GraphState :=
  if g.hollow n = true then
    let g1 := (neighbors g n).foldl flip_sign g
    if g1.loop n = true then flip_sign g1 n else g1
  else
    flip_sign g n

/-- Modelled from the spec: the backend operation `remove_node(node)`;
removal cascades, deleting every incident edge. -/
def remove_node (g : GraphState) (n : Nat) : GraphState :=
  { g with
    nodeList := g.nodeList.erase n
    edge := fun a b => if a = n ∨ b = n then false else g.edge a b }

/-- Exception propagation for methods returning a value: `bindE r k` runs `k`
on the state and value produced by `r`, or propagates the error (with the
state at the raise point) unchanged. -/
def bindE {α β : Type} (r : GraphState × Except String α)
    (k : GraphState → α → GraphState × Except String β) :
    GraphState × Except String β :=
  match r with
  | (st, Except.ok a) => k st a
  | (st, Except.error e) => (st, Except.error e)

/-- `true` exactly on the non-exception result. -/
def isOk {ε α : Type} : Except ε α → Bool
  | Except.ok _ => true
  | Except.error _ => false

/-- `BaseGraphState.equivalent_graph_e1`: rewrite rule E1, applicable only
to a node with `loop = true`. -/
def equivalent_graph_e1 (g : GraphState) (n : Nat) :
    GraphState × Except String Unit :=
  if g.loop n = true then
    let g1 := flip_fill g n
    let g2 := local_complement g1 n
    let g3 := (neighbors g2 n).foldl advance g2
    let g4 := flip_sign g3 n
    let g5 := if g4.sign n = true then (neighbors g4 n).foldl flip_sign g4 else g4
    (g5, Except.ok ())
  else
    (g, Except.error "node must have loop")

/-- `BaseGraphState.equivalent_graph_e2`: rewrite rule E2, applicable only to
two connected nodes, neither of which has a loop. -/
def equivalent_graph_e2 (g : GraphState) (n1 n2 : Nat) :
    GraphState × Except String Unit :=
  if (g.edge n1 n2 || g.edge n2 n1) = false then
    (g, Except.error "nodes must be connected by an edge")
  else if (g.loop n1 || g.loop n2) = true then
    (g, Except.error "nodes must not have loop")
  else
    let sg1 := g.sign n1
    let sg2 := g.sign n2
    let g1 := flip_fill g n1
    let g2 := flip_fill g1 n2
    let g3 := local_complement g2 n1
    let g4 := local_complement g3 n2
    let g5 := local_complement g4 n1
    let common := (neighbors g5 n1).filter (fun i => decide (i ∈ neighbors g5 n2))
    let g6 := common.foldl flip_sign g5
    let g7 :=
      if sg1 = true then
        let ga := flip_sign g6 n1
        (neighbors ga n1).foldl flip_sign ga
      else g6
    let g8 :=
      if sg2 = true then
        let gb := flip_sign g7 n2
        (neighbors gb n2).foldl flip_sign gb
      else g7
    (g8, Except.ok ())

/-- `BaseGraphState.equivalent_fill_node`: fills the chosen node using E1/E2,
returning status 1 (hollow isolated), 2 (filled isolated) or 0. -/
def equivalent_fill_node (g : GraphState) (n : Nat) :
    GraphState × Except String Nat :=
  if g.hollow n = true then
    if g.loop n = true then
      bindE (equivalent_graph_e1 g n) (fun st _ => (st, Except.ok 0))
    else if neighbors g n = [] then
      (g, Except.ok 1)
    else
      match (neighbors g n).find? (fun i => !g.loop i) with
      | some i => bindE (equivalent_graph_e2 g n i) (fun st _ => (st, Except.ok 0))
      | none =>
        bindE (equivalent_graph_e1 g ((neighbors g n).headD 0)) (fun st _ =>
          bindE (equivalent_graph_e1 st n) (fun st2 _ => (st2, Except.ok 0)))
  else if neighbors g n = [] then
    (g, Except.ok 2)
  else
    (g, Except.ok 0)

/-- `BaseGraphState.measure_z`: Z-basis measurement. -/
def measure_z (g : GraphState) (n : Nat) (choice : Nat) :
    GraphState × Except String Nat :=
  if choice = 0 ∨ choice = 1 then
    bindE (equivalent_fill_node g n) (fun st isolated =>
      let st1 := if choice ≠ 0 then (neighbors st n).foldl flip_sign st else st
      let result := if isolated = 0 then choice else (if st1.sign n = true then 1 else 0)
      (remove_node st1 n, Except.ok result))
  else
    (g, Except.error "choice must be 0 or 1")

/-- `BaseGraphState.measure_x`: X-basis measurement. -/
def measure_x (g : GraphState) (n : Nat) (choice : Nat) :
    GraphState × Except String Nat :=
  if choice = 0 ∨ choice = 1 then
    if neighbors g n = [] then
      let c :=
        if (g.hollow n || g.loop n) = true then choice
        else if g.sign n = true then 1 else 0
      (remove_node g n, Except.ok c)
    else
      measure_z (h g n) n choice
  else
    (g, Except.error "choice must be 0 or 1")

/-- `BaseGraphState.measure_y`: Y-basis measurement. -/
def measure_y (g : GraphState) (n : Nat) (choice : Nat) :
    GraphState × Except String Nat :=
  if choice = 0 ∨ choice = 1 then
    measure_z (h (z (s g n) n) n) n choice
  else
    (g, Except.error "choice must be 0 or 1")

/-- A Pauli axis. -/
inductive Axis : Type
  | X
  | Y
  | Z
deriving DecidableEq

/-- A signed Pauli axis. -/
structure SAxis where
  axis : Axis
  neg : Bool
deriving DecidableEq

/-- Modelled from the spec: a single-qubit Clifford operator modulo global
phase (the local Clifford tracker of `graphix.clifford`), represented by its
conjugation action on the three Pauli axes. -/
structure Rot where
  imX : SAxis
  imY : SAxis
  imZ : SAxis
deriving DecidableEq

/-- The action of a Clifford on a signed Pauli axis. -/
def rotApply (r : Rot) (sa : SAxis) : SAxis :=
  let t :=
    match sa.axis with
    | Axis.X => r.imX
    | Axis.Y => r.imY
    | Axis.Z => r.imZ
  ⟨t.axis, xor sa.neg t.neg⟩

/-- Composition of Clifford operators (the `@` operator on Clifford indices):
`rotMul a b` is the operator `a · b`, applying `b` first. -/
def rotMul (a b : Rot) : Rot :=
  ⟨rotApply a b.imX, rotApply a b.imY, rotApply a b.imZ⟩

/-- Modelled from the spec: Clifford index 0, the identity operator. -/
def cliffordZero : Rot :=
  ⟨⟨Axis.X, false⟩, ⟨Axis.Y, false⟩, ⟨Axis.Z, false⟩⟩

/-- The Clifford operator H (swaps X and Z, negates Y). -/
def rotH : Rot :=
  ⟨⟨Axis.Z, false⟩, ⟨Axis.Y, true⟩, ⟨Axis.X, false⟩⟩

/-- The Clifford operator S (X to Y, Y to minus X, fixes Z). -/
def rotS : Rot :=
  ⟨⟨Axis.Y, false⟩, ⟨Axis.X, true⟩, ⟨Axis.Z, false⟩⟩

/-- The Clifford operator Z (negates X and Y, fixes Z). -/
def rotZ : Rot :=
  ⟨⟨Axis.X, true⟩, ⟨Axis.Y, true⟩, ⟨Axis.Z, false⟩⟩

/-- A generator letter of an HSZ decomposition. -/
inductive Gen : Type
  | H
  | S
  | Z
deriving DecidableEq

/-- The Clifford operator denoted by a generator letter. -/
def genRot : Gen → Rot
  | Gen.H => rotH
  | Gen.S => rotS
  | Gen.Z => rotZ

/-- The operator denoted by an HSZ word `[f1, …, fk]`, namely `f1 · … · fk`. -/
def evalWord (w : List Gen) : Rot :=
  w.foldr (fun gn acc => rotMul (genRot gn) acc) cliffordZero

/-- All HSZ words of the given length. -/
def wordsOfLen : Nat → List (List Gen)
  | 0 => [[]]
  | m + 1 => (wordsOfLen m).flatMap (fun w => [Gen.H :: w, Gen.S :: w, Gen.Z :: w])

/-- All HSZ words of length at most 6, shortest first. -/
def allWords : List (List Gen) :=
  (List.range 7).flatMap wordsOfLen

/-- Modelled from the spec: the `hsz` decomposition of a Clifford operator —
an ordered {H,S,Z} factorization of the operator (the shortest such word;
the identity decomposes as the empty word). -/
def hsz (r : Rot) : List Gen :=
  (allWords.find? (fun w => decide (evalWord w = r))).getD []

/-- The loop body of `get_vops`: the local Clifford read off one node's flag
triple, composing Z, then S, then H onto index 0. -/
def vopOf (g : GraphState) (i : Nat) : Rot :=
  let v0 : Rot := cliffordZero
  let v1 : Rot := if g.sign i = true then rotMul rotZ v0 else v0
  let v2 : Rot := if g.loop i = true then rotMul rotS v1 else v1
  if g.hollow i = true then rotMul rotH v2 else v2

/-- `BaseGraphState.get_vops`: reads every node's flag triple back as a local
Clifford operator, composing Z, then S, then H. The method performs no
mutation, so the translated state component is the input graph. -/
def get_vops (g : GraphState) : GraphState × List (Nat × Rot) :=
  (g, g.nodeList.map (fun i => (i, vopOf g i)))

/-- Dispatch of one HSZ factor to the graph gates, as in `apply_vops`. -/
def applyGate (st : GraphState) (node : Nat) (gn : Gen) : GraphState :=
  match gn with
  | Gen.Z => z st node
  | Gen.H => h st node
  | Gen.S => s st node

/-- `BaseGraphState.apply_vops`: applies each node's local Clifford by
running its HSZ factors through the graph gates in reverse factor order. -/
def apply_vops (g : GraphState) (vops : List (Nat × Rot)) : GraphState :=
  vops.foldl (fun st p =>
    ((hsz p.2).reverse).foldl (fun st2 gn => applyGate st2 p.1 gn) st) g

/-- Well-formedness of a decorated graph: the edge relation is symmetric and
irreflexive (no structural self-loops), mentions only stored nodes, and the
node list has no duplicates. -/
structure WF (g : GraphState) : Prop where
  symm : ∀ a b, g.edge a b = g.edge b a
  irrefl : ∀ a, g.edge a a = false
  mem_of_edge : ∀ a b, g.edge a b = true → a ∈ g.nodeList ∧ b ∈ g.nodeList
  nodup : g.nodeList.Nodup

/-- A concrete decorated graph from a node list, an edge list and the lists
of nodes whose `hollow`, `loop` and `sign` flags are set. -/
def mkGraph (ns : List Nat) (es : List (Nat × Nat)) (hs ls ss : List Nat) :
    GraphState :=
  { nodeList := ns
    edge := fun a b => decide ((a, b) ∈ es) || decide ((b, a) ∈ es)
    hollow := fun i => decide (i ∈ hs)
    loop := fun i => decide (i ∈ ls)
    sign := fun i => decide (i ∈ ss) }

/-- `mkGraph` yields a well-formed graph whenever the node list has no
duplicates and every listed edge joins two distinct stored nodes. -/
theorem mkGraph_wf (ns : List Nat) (es : List (Nat × Nat)) (hs ls ss : List Nat)
    (h1 : ns.Nodup) (h2 : ∀ p ∈ es, p.1 ≠ p.2)
    (h3 : ∀ p ∈ es, p.1 ∈ ns ∧ p.2 ∈ ns) : WF (mkGraph ns es hs ls ss) := by
  constructor
  · intro a b
    simp [mkGraph]
    exact Bool.or_comm _ _
  · intro a
    simp [mkGraph]
    intro hmem
    exact absurd rfl (h2 (a, a) hmem)
  · intro a b hab
    simp [mkGraph] at hab
    rcases hab with hab | hab
    · exact h3 (a, b) hab
    · exact ⟨(h3 (b, a) hab).2, (h3 (b, a) hab).1⟩
  · exact h1

theorem funUpdate_self (f : Nat → Bool) (n : Nat) (v : Bool) :
    funUpdate f n v n = v := by
  simp [funUpdate]

theorem funUpdate_other (f : Nat → Bool) (n : Nat) (v : Bool) (m : Nat)
    (hm : m ≠ n) : funUpdate f n v m = f m := by
  simp [funUpdate, hm]

theorem mem_neighbors (g : GraphState) (n m : Nat) :
    m ∈ neighbors g n ↔ m ∈ g.nodeList ∧ g.edge n m = true := by
  simp [neighbors, List.mem_filter]

theorem flip_fill_nodeList (g : GraphState) (n : Nat) :
    (flip_fill g n).nodeList = g.nodeList := rfl

theorem flip_fill_edge (g : GraphState) (n : Nat) :
    (flip_fill g n).edge = g.edge := rfl

theorem flip_fill_loop (g : GraphState) (n : Nat) :
    (flip_fill g n).loop = g.loop := rfl

theorem flip_fill_sign (g : GraphState) (n : Nat) :
    (flip_fill g n).sign = g.sign := rfl

theorem flip_sign_nodeList (g : GraphState) (n : Nat) :
    (flip_sign g n).nodeList = g.nodeList := rfl

theorem flip_sign_edge (g : GraphState) (n : Nat) :
    (flip_sign g n).edge = g.edge := rfl

theorem flip_sign_hollow (g : GraphState) (n : Nat) :
    (flip_sign g n).hollow = g.hollow := rfl

theorem flip_sign_loop (g : GraphState) (n : Nat) :
    (flip_sign g n).loop = g.loop := rfl

theorem flip_sign_sign_self (g : GraphState) (n : Nat) :
    (flip_sign g n).sign n = !g.sign n := by
  simp [flip_sign, funUpdate_self]

theorem flip_sign_sign_other (g : GraphState) (n m : Nat) (hm : m ≠ n) :
    (flip_sign g n).sign m = g.sign m := by
  simp [flip_sign, funUpdate_other _ _ _ _ hm]

theorem advance_nodeList (g : GraphState) (n : Nat) :
    (advance g n).nodeList = g.nodeList := by
  unfold advance
  split <;> rfl

theorem advance_edge (g : GraphState) (n : Nat) :
    (advance g n).edge = g.edge := by
  unfold advance
  split <;> rfl

theorem advance_hollow (g : GraphState) (n : Nat) :
    (advance g n).hollow = g.hollow := by
  unfold advance
  split <;> rfl

theorem advance_loop_self (g : GraphState) (n : Nat) :
    (advance g n).loop n = !g.loop n := by
  unfold advance
  split
  · next hc => simp [flip_sign, funUpdate_self, hc]
  · next hc =>
    simp only [Bool.not_eq_true] at hc
    simp [funUpdate_self, hc]

theorem advance_sign_self (g : GraphState) (n : Nat) :
    (advance g n).sign n = if g.loop n = true then !g.sign n else g.sign n := by
  unfold advance
  split
  · next hc => simp [hc, flip_sign, funUpdate_self]
  · next hc =>
    simp only [Bool.not_eq_true] at hc
    simp [hc]

theorem advance_loop_other (g : GraphState) (n m : Nat) (hm : m ≠ n) :
    (advance g n).loop m = g.loop m := by
  unfold advance
  split
  · simp [flip_sign, funUpdate_other _ _ _ _ hm]
  · simp [funUpdate_other _ _ _ _ hm]

theorem advance_sign_other (g : GraphState) (n m : Nat) (hm : m ≠ n) :
    (advance g n).sign m = g.sign m := by
  unfold advance
  split
  · simp [flip_sign, funUpdate_other _ _ _ _ hm]
  · rfl

theorem foldl_advance_nodeList (l : List Nat) (g : GraphState) :
    (l.foldl advance g).nodeList = g.nodeList := by
  induction l generalizing g with
  | nil => rfl
  | cons a t ih => rw [List.foldl_cons, ih, advance_nodeList]

theorem foldl_advance_edge (l : List Nat) (g : GraphState) :
    (l.foldl advance g).edge = g.edge := by
  induction l generalizing g with
  | nil => rfl
  | cons a t ih => rw [List.foldl_cons, ih, advance_edge]

theorem foldl_advance_hollow (l : List Nat) (g : GraphState) :
    (l.foldl advance g).hollow = g.hollow := by
  induction l generalizing g with
  | nil => rfl
  | cons a t ih => rw [List.foldl_cons, ih, advance_hollow]

theorem foldl_advance_loop_notmem (l : List Nat) (g : GraphState) (x : Nat)
    (hx : x ∉ l) : (l.foldl advance g).loop x = g.loop x := by
  induction l generalizing g with
  | nil => rfl
  | cons a t ih =>
    rw [List.foldl_cons, ih _ (fun hmem => hx (List.mem_cons_of_mem a hmem)),
      advance_loop_other g a x (fun he => hx (he ▸ List.mem_cons_self a t))]

theorem foldl_advance_sign_notmem (l : List Nat) (g : GraphState) (x : Nat)
    (hx : x ∉ l) : (l.foldl advance g).sign x = g.sign x := by
  induction l generalizing g with
  | nil => rfl
  | cons a t ih =>
    rw [List.foldl_cons, ih _ (fun hmem => hx (List.mem_cons_of_mem a hmem)),
      advance_sign_other g a x (fun he => hx (he ▸ List.mem_cons_self a t))]

theorem foldl_advance_loop_mem (l : List Nat) (g : GraphState) (x : Nat)
    (hnd : l.Nodup) (hx : x ∈ l) : (l.foldl advance g).loop x = !g.loop x := by
  induction l generalizing g with
  | nil => cases hx
  | cons a t ih =>
    rw [List.foldl_cons]
    rcases List.mem_cons.mp hx with he | hmem
    · subst he
      rw [foldl_advance_loop_notmem _ _ _ (List.Nodup.not_mem hnd),
        advance_loop_self]
    · rw [ih _ (List.Nodup.of_cons hnd) hmem,
        advance_loop_other g a x (fun he2 => (List.Nodup.not_mem hnd) (he2 ▸ hmem))]

theorem foldl_advance_sign_mem (l : List Nat) (g : GraphState) (x : Nat)
    (hnd : l.Nodup) (hx : x ∈ l) :
    (l.foldl advance g).sign x = if g.loop x = true then !g.sign x else g.sign x := by
  induction l generalizing g with
  | nil => cases hx
  | cons a t ih =>
    rw [List.foldl_cons]
    rcases List.mem_cons.mp hx with he | hmem
    · subst he
      rw [foldl_advance_sign_notmem _ _ _ (List.Nodup.not_mem hnd),
        advance_sign_self]
    · have hax : x ≠ a := fun he2 => (List.Nodup.not_mem hnd) (he2 ▸ hmem)
      rw [ih _ (List.Nodup.of_cons hnd) hmem, advance_sign_other g a x hax,
        advance_loop_other g a x hax]

theorem foldl_flip_sign_nodeList (l : List Nat) (g : GraphState) :
    (l.foldl flip_sign g).nodeList = g.nodeList := by
  induction l generalizing g with
  | nil => rfl
  | cons a t ih => rw [List.foldl_cons, ih, flip_sign_nodeList]

theorem foldl_flip_sign_edge (l : List Nat) (g : GraphState) :
    (l.foldl flip_sign g).edge = g.edge := by
  induction l generalizing g with
  | nil => rfl
  | cons a t ih => rw [List.foldl_cons, ih, flip_sign_edge]

theorem foldl_flip_sign_hollow (l : List Nat) (g : GraphState) :
    (l.foldl flip_sign g).hollow = g.hollow := by
  induction l generalizing g with
  | nil => rfl
  | cons a t ih => rw [List.foldl_cons, ih, flip_sign_hollow]

theorem foldl_flip_sign_loop (l : List Nat) (g : GraphState) :
    (l.foldl flip_sign g).loop = g.loop := by
  induction l generalizing g with
  | nil => rfl
  | cons a t ih => rw [List.foldl_cons, ih, flip_sign_loop]

theorem foldl_flip_sign_sign_notmem (l : List Nat) (g : GraphState) (x : Nat)
    (hx : x ∉ l) : (l.foldl flip_sign g).sign x = g.sign x := by
  induction l generalizing g with
  | nil => rfl
  | cons a t ih =>
    rw [List.foldl_cons, ih _ (fun hmem => hx (List.mem_cons_of_mem a hmem)),
      flip_sign_sign_other g a x (fun he => hx (he ▸ List.mem_cons_self a t))]

theorem foldl_flip_sign_sign_mem (l : List Nat) (g : GraphState) (x : Nat)
    (hnd : l.Nodup) (hx : x ∈ l) : (l.foldl flip_sign g).sign x = !g.sign x := by
  induction l generalizing g with
  | nil => cases hx
  | cons a t ih =>
    rw [List.foldl_cons]
    rcases List.mem_cons.mp hx with he | hmem
    · subst he
      rw [foldl_flip_sign_sign_notmem _ _ _ (List.Nodup.not_mem hnd),
        flip_sign_sign_self]
    · rw [ih _ (List.Nodup.of_cons hnd) hmem,
        flip_sign_sign_other g a x (fun he2 => (List.Nodup.not_mem hnd) (he2 ▸ hmem))]

theorem lc_nodeList (g : GraphState) (n : Nat) :
    (local_complement g n).nodeList = g.nodeList := rfl

theorem lc_hollow (g : GraphState) (n : Nat) :
    (local_complement g n).hollow = g.hollow := rfl

theorem lc_sign (g : GraphState) (n : Nat) :
    (local_complement g n).sign = g.sign := rfl

theorem lc_loop (g : GraphState) (n : Nat) :
    (local_complement g n).loop = g.loop := rfl

theorem lc_edge (g : GraphState) (n a b : Nat) :
    (local_complement g n).edge a b =
      if a ≠ b ∧ a ∈ neighbors g n ∧ b ∈ neighbors g n then !g.edge a b
      else g.edge a b := rfl

theorem not_self_mem_neighbors (g : GraphState) (n : Nat)
    (hnn : g.edge n n = false) : n ∉ neighbors g n := by
  intro hmem
  rw [mem_neighbors] at hmem
  rw [hnn] at hmem
  exact Bool.false_ne_true hmem.2

theorem lc_edge_row (g : GraphState) (n : Nat) (hnn : g.edge n n = false)
    (m : Nat) : (local_complement g n).edge n m = g.edge n m := by
  rw [lc_edge]
  have hn : n ∉ neighbors g n := not_self_mem_neighbors g n hnn
  rw [if_neg]
  intro hc
  exact hn hc.2.1

theorem lc_edge_col (g : GraphState) (n : Nat) (hnn : g.edge n n = false)
    (m : Nat) : (local_complement g n).edge m n = g.edge m n := by
  rw [lc_edge]
  have hn : n ∉ neighbors g n := not_self_mem_neighbors g n hnn
  rw [if_neg]
  intro hc
  exact hn hc.2.2

theorem neighbors_congr (g g' : GraphState) (n : Nat)
    (h1 : g'.nodeList = g.nodeList) (h2 : ∀ m, g'.edge n m = g.edge n m) :
    neighbors g' n = neighbors g n := by
  unfold neighbors
  rw [h1]
  exact List.filter_congr (fun m _ => h2 m)

theorem lc_neighbors_self (g : GraphState) (n : Nat)
    (hnn : g.edge n n = false) :
    neighbors (local_complement g n) n = neighbors g n :=
  neighbors_congr g (local_complement g n) n (lc_nodeList g n)
    (lc_edge_row g n hnn)

theorem neighbors_nodup (g : GraphState) (n : Nat) (hnd : g.nodeList.Nodup) :
    (neighbors g n).Nodup :=
  List.Nodup.filter _ hnd

theorem lc_lc_edge (g : GraphState) (n : Nat) (hnn : g.edge n n = false)
    (a b : Nat) :
    (local_complement (local_complement g n) n).edge a b = g.edge a b := by
  rw [lc_edge, lc_neighbors_self g n hnn, lc_edge]
  by_cases hc : a ≠ b ∧ a ∈ neighbors g n ∧ b ∈ neighbors g n
  · rw [if_pos hc, if_pos hc, Bool.not_not]
  · rw [if_neg hc, if_neg hc]

theorem e1_error (g : GraphState) (n : Nat) (hl : g.loop n = false) :
    equivalent_graph_e1 g n = (g, Except.error "node must have loop") := by
  simp [equivalent_graph_e1, hl]

theorem e1_snd_ok (g : GraphState) (n : Nat) (hl : g.loop n = true) :
    (equivalent_graph_e1 g n).2 = Except.ok () := by
  simp only [equivalent_graph_e1, hl, if_true]

theorem e1_snd_iff (g : GraphState) (n : Nat) :
    isOk (equivalent_graph_e1 g n).2 = g.loop n := by
  cases hl : g.loop n
  · rw [e1_error g n hl]
    rfl
  · rw [e1_snd_ok g n hl]
    rfl

theorem e1_nodeList (g : GraphState) (n : Nat) :
    (equivalent_graph_e1 g n).1.nodeList = g.nodeList := by
  unfold equivalent_graph_e1
  split
  · simp only
    split
    · rw [foldl_flip_sign_nodeList, flip_sign_nodeList, foldl_advance_nodeList,
        lc_nodeList, flip_fill_nodeList]
    · rw [flip_sign_nodeList, foldl_advance_nodeList, lc_nodeList,
        flip_fill_nodeList]
  · rfl

theorem e1_hollow_self (g : GraphState) (n : Nat) (hl : g.loop n = true) :
    (equivalent_graph_e1 g n).1.hollow n = !g.hollow n := by
  unfold equivalent_graph_e1
  rw [if_pos hl]
  simp only
  split
  · rw [foldl_flip_sign_hollow, flip_sign_hollow, foldl_advance_hollow,
      lc_hollow]
    simp [flip_fill, funUpdate_self]
  · rw [flip_sign_hollow, foldl_advance_hollow, lc_hollow]
    simp [flip_fill, funUpdate_self]

theorem e1_loop_mem (g : GraphState) (n m : Nat) (hwf : WF g)
    (hl : g.loop n = true) (hm : m ∈ neighbors g n) :
    (equivalent_graph_e1 g n).1.loop m = !g.loop m := by
  unfold equivalent_graph_e1
  rw [if_pos hl]
  simp only
  have hnn : (flip_fill g n).edge n n = false := hwf.irrefl n
  have hnb : neighbors (local_complement (flip_fill g n) n) n = neighbors g n :=
    lc_neighbors_self (flip_fill g n) n hnn
  have hnd : (neighbors g n).Nodup := neighbors_nodup g n hwf.nodup
  split
  · rw [foldl_flip_sign_loop, flip_sign_loop, hnb,
      foldl_advance_loop_mem _ _ _ hnd hm, lc_loop, flip_fill_loop]
  · rw [flip_sign_loop, hnb, foldl_advance_loop_mem _ _ _ hnd hm, lc_loop,
      flip_fill_loop]

theorem bindE_of_ok {α β : Type} {r : GraphState × Except String α} {a : α}
    (hr : r.2 = Except.ok a)
    (k : GraphState → α → GraphState × Except String β) :
    bindE r k = k r.1 a := by
  obtain ⟨st, x⟩ := r
  cases x
  · simp_all [bindE]
  · simp_all [bindE]

theorem bindE_of_error {α β : Type} {r : GraphState × Except String α}
    {e : String} (hr : r.2 = Except.error e)
    (k : GraphState → α → GraphState × Except String β) :
    bindE r k = (r.1, Except.error e) := by
  obtain ⟨st, x⟩ := r
  cases x
  · simp_all [bindE]
  · simp_all [bindE]

theorem e2_snd_ok (g : GraphState) (n1 n2 : Nat)
    (hedge : (g.edge n1 n2 || g.edge n2 n1) = true)
    (hloop : (g.loop n1 || g.loop n2) = false) :
    (equivalent_graph_e2 g n1 n2).2 = Except.ok () := by
  unfold equivalent_graph_e2
  rw [hedge, hloop]
  simp

theorem e2_not_ok_iff (g : GraphState) (n1 n2 : Nat) :
    isOk (equivalent_graph_e2 g n1 n2).2 = false ↔
      ((g.edge n1 n2 || g.edge n2 n1) = false ∨
        (g.loop n1 || g.loop n2) = true) := by
  unfold equivalent_graph_e2
  split
  · next hc => simp [isOk, hc]
  · next hc =>
    split
    · next hc2 => simp [isOk, hc2]
    · next hc2 =>
      rw [Bool.not_eq_false] at hc
      simp [isOk, hc, hc2]

theorem e2_error_state (g : GraphState) (n1 n2 : Nat)
    (hbad : isOk (equivalent_graph_e2 g n1 n2).2 = false) :
    (equivalent_graph_e2 g n1 n2).1 = g := by
  unfold equivalent_graph_e2 at hbad ⊢
  split
  · rfl
  · next hc =>
    split
    · rfl
    · next hc2 =>
      rw [if_neg hc, if_neg hc2] at hbad
      simp [isOk] at hbad

theorem e2_nodeList (g : GraphState) (n1 n2 : Nat) :
    (equivalent_graph_e2 g n1 n2).1.nodeList = g.nodeList := by
  unfold equivalent_graph_e2
  split
  · rfl
  · split
    · rfl
    · simp only
      split
      · split
        · rw [foldl_flip_sign_nodeList, flip_sign_nodeList,
            foldl_flip_sign_nodeList, flip_sign_nodeList,
            foldl_flip_sign_nodeList, lc_nodeList, lc_nodeList, lc_nodeList,
            flip_fill_nodeList, flip_fill_nodeList]
        · rw [foldl_flip_sign_nodeList, flip_sign_nodeList,
            foldl_flip_sign_nodeList, lc_nodeList, lc_nodeList, lc_nodeList,
            flip_fill_nodeList, flip_fill_nodeList]
      · split
        · rw [foldl_flip_sign_nodeList, flip_sign_nodeList,
            foldl_flip_sign_nodeList, lc_nodeList, lc_nodeList, lc_nodeList,
            flip_fill_nodeList, flip_fill_nodeList]
        · rw [foldl_flip_sign_nodeList, lc_nodeList, lc_nodeList, lc_nodeList,
            flip_fill_nodeList, flip_fill_nodeList]

theorem fill_fst_nodeList (g : GraphState) (n : Nat) :
    (equivalent_fill_node g n).1.nodeList = g.nodeList := by
  unfold equivalent_fill_node
  split
  · split
    · cases hr : (equivalent_graph_e1 g n).2 with
      | ok a => rw [bindE_of_ok hr]; exact e1_nodeList g n
      | error e => rw [bindE_of_error hr]; exact e1_nodeList g n
    · split
      · rfl
      · split
        · next i _ =>
          cases hr : (equivalent_graph_e2 g n i).2 with
          | ok a => rw [bindE_of_ok hr]; exact e2_nodeList g n i
          | error e => rw [bindE_of_error hr]; exact e2_nodeList g n i
        · cases hr : (equivalent_graph_e1 g ((neighbors g n).headD 0)).2 with
          | error e =>
            rw [bindE_of_error hr]
            exact e1_nodeList g _
          | ok a =>
            rw [bindE_of_ok hr]
            have h1 := e1_nodeList g ((neighbors g n).headD 0)
            cases hr2 :
                (equivalent_graph_e1 (equivalent_graph_e1 g
                  ((neighbors g n).headD 0)).1 n).2 with
            | ok b =>
              rw [bindE_of_ok hr2]
              rw [e1_nodeList _ n, h1]
            | error e =>
              rw [bindE_of_error hr2]
              rw [e1_nodeList _ n, h1]
  · split
    · rfl
    · rfl

theorem z_nodeList (g : GraphState) (n : Nat) :
    (z g n).nodeList = g.nodeList := by
  unfold z
  split
  · simp only
    split
    · rw [flip_sign_nodeList, foldl_flip_sign_nodeList]
    · rw [foldl_flip_sign_nodeList]
  · rw [flip_sign_nodeList]

theorem z_edge (g : GraphState) (n : Nat) : (z g n).edge = g.edge := by
  unfold z
  split
  · simp only
    split
    · rw [flip_sign_edge, foldl_flip_sign_edge]
    · rw [foldl_flip_sign_edge]
  · rw [flip_sign_edge]

theorem z_hollow (g : GraphState) (n : Nat) : (z g n).hollow = g.hollow := by
  unfold z
  split
  · simp only
    split
    · rw [flip_sign_hollow, foldl_flip_sign_hollow]
    · rw [foldl_flip_sign_hollow]
  · rw [flip_sign_hollow]

theorem z_loop (g : GraphState) (n : Nat) : (z g n).loop = g.loop := by
  unfold z
  split
  · simp only
    split
    · rw [flip_sign_loop, foldl_flip_sign_loop]
    · rw [foldl_flip_sign_loop]
  · rw [flip_sign_loop]

theorem s_nodeList (g : GraphState) (n : Nat) :
    (s g n).nodeList = g.nodeList := by
  unfold s
  split
  · split
    · simp only
      rw [foldl_advance_nodeList, lc_nodeList]
      rfl
    · simp only
      split
      · rw [foldl_flip_sign_nodeList, foldl_advance_nodeList, lc_nodeList]
      · rw [foldl_advance_nodeList, lc_nodeList]
  · rw [advance_nodeList]

theorem h_nodeList (g : GraphState) (n : Nat) :
    (h g n).nodeList = g.nodeList := rfl

theorem remove_node_nodeList (g : GraphState) (n : Nat) :
    (remove_node g n).nodeList = g.nodeList.erase n := rfl

theorem measure_z_removes (g : GraphState) (n c : Nat)
    (hnd : g.nodeList.Nodup) (hok : isOk (measure_z g n c).2 = true) :
    n ∉ (measure_z g n c).1.nodeList := by
  unfold measure_z at hok ⊢
  split
  · next hv =>
    rw [if_pos hv] at hok
    cases hr : (equivalent_fill_node g n).2 with
    | error e =>
      rw [bindE_of_error hr] at hok
      simp [isOk] at hok
    | ok iso =>
      rw [bindE_of_ok hr]
      simp only [remove_node_nodeList]
      have hst1 :
          (if c ≠ 0 then
              (neighbors (equivalent_fill_node g n).1 n).foldl flip_sign
                (equivalent_fill_node g n).1
            else (equivalent_fill_node g n).1).nodeList = g.nodeList := by
        split
        · rw [foldl_flip_sign_nodeList, fill_fst_nodeList]
        · rw [fill_fst_nodeList]
      rw [hst1]
      intro hmem
      rw [List.Nodup.mem_erase_iff hnd] at hmem
      exact hmem.1 rfl
  · next hc =>
    rw [if_neg hc] at hok
    simp [isOk] at hok

theorem bool_eq_false_of_not {b : Bool} (hb : ¬(b = true)) : b = false := by
  cases hv : b
  · rfl
  · exact absurd hv hb

theorem fill_snd_ok (g : GraphState) (n : Nat) (hwf : WF g)
    (hn : n ∈ g.nodeList) (hnb : neighbors g n ≠ []) :
    (equivalent_fill_node g n).2 = Except.ok 0 := by
  unfold equivalent_fill_node
  split
  · split
    · next hl =>
      rw [bindE_of_ok (e1_snd_ok g n hl)]
    · next hl =>
      have hlf : g.loop n = false := bool_eq_false_of_not hl
      split
      · next i hf =>
        have hi_mem : i ∈ neighbors g n := List.mem_of_find?_eq_some hf
        have hi_loop : g.loop i = false := by
          have hb := List.find?_some hf
          simpa using hb
        have hedge : g.edge n i = true := ((mem_neighbors g n i).mp hi_mem).2
        rw [bindE_of_ok (e2_snd_ok g n i (by rw [hedge]; rfl)
          (by rw [hlf, hi_loop]; rfl))]
      · next hf =>
        have hall : ∀ a ∈ neighbors g n, ¬((!g.loop a) = true) :=
          List.find?_eq_none.mp hf
        obtain ⟨i0, t, hcons⟩ : ∃ i0 t, neighbors g n = i0 :: t := by
          cases hnbs : neighbors g n with
          | nil => exact absurd hnbs hnb
          | cons a b => exact ⟨a, b, rfl⟩
        have hi0 : (neighbors g n).headD 0 = i0 := by rw [hcons]; rfl
        have hi0mem : i0 ∈ neighbors g n := by
          rw [hcons]
          exact List.mem_cons_self i0 t
        have hi0loop : g.loop i0 = true := by
          have hb := hall i0 hi0mem
          simpa using hb
        rw [hi0, bindE_of_ok (e1_snd_ok g i0 hi0loop)]
        have hnmem : n ∈ neighbors g i0 := by
          rw [mem_neighbors]
          refine ⟨hn, ?_⟩
          rw [hwf.symm]
          exact ((mem_neighbors g n i0).mp hi0mem).2
        have hnloop : (equivalent_graph_e1 g i0).1.loop n = true := by
          rw [e1_loop_mem g i0 n hwf hi0loop hnmem, hlf]
          rfl
        rw [bindE_of_ok (e1_snd_ok _ n hnloop)]
  · rfl

theorem fill_not_hollow_isolated (g : GraphState) (n : Nat)
    (hh : g.hollow n = false) (hnb : neighbors g n = []) :
    equivalent_fill_node g n = (g, Except.ok 2) := by
  unfold equivalent_fill_node
  rw [if_neg (by rw [hh]; exact Bool.false_ne_true), if_pos hnb]

theorem fill_not_hollow_connected (g : GraphState) (n : Nat)
    (hh : g.hollow n = false) (hnb : neighbors g n ≠ []) :
    equivalent_fill_node g n = (g, Except.ok 0) := by
  unfold equivalent_fill_node
  rw [if_neg (by rw [hh]; exact Bool.false_ne_true), if_neg hnb]

theorem fill_hollow_isolated (g : GraphState) (n : Nat)
    (hh : g.hollow n = true) (hl : g.loop n = false)
    (hnb : neighbors g n = []) :
    equivalent_fill_node g n = (g, Except.ok 1) := by
  unfold equivalent_fill_node
  rw [if_pos hh, if_neg (by rw [hl]; exact Bool.false_ne_true), if_pos hnb]

theorem fill_hollow_loop_snd (g : GraphState) (n : Nat)
    (hh : g.hollow n = true) (hl : g.loop n = true) :
    (equivalent_fill_node g n).2 = Except.ok 0 := by
  unfold equivalent_fill_node
  rw [if_pos hh, if_pos hl, bindE_of_ok (e1_snd_ok g n hl)]

theorem measure_z_snd_of_fill_zero (g : GraphState) (n c : Nat)
    (hv : c = 0 ∨ c = 1) (hfill : (equivalent_fill_node g n).2 = Except.ok 0) :
    (measure_z g n c).2 = Except.ok c := by
  unfold measure_z
  rw [if_pos hv, bindE_of_ok hfill]
  simp

theorem measure_z_snd_isolated (g : GraphState) (n c : Nat)
    (hv : c = 0 ∨ c = 1) (iso : Nat)
    (hfill : equivalent_fill_node g n = (g, Except.ok iso)) (hiso : iso ≠ 0)
    (hnb : neighbors g n = []) :
    (measure_z g n c).2 = Except.ok (if g.sign n = true then 1 else 0) := by
  unfold measure_z
  have h2 : (equivalent_fill_node g n).2 = Except.ok iso := by rw [hfill]
  have h1 : (equivalent_fill_node g n).1 = g := by rw [hfill]
  rw [if_pos hv, bindE_of_ok h2]
  simp only [h1, hnb, List.foldl_nil, ite_self, if_neg hiso]

theorem hsz_cliffordZero : hsz cliffordZero = [] := by decide

theorem apply_vops_cons (g : GraphState) (p : Nat × Rot) (t : List (Nat × Rot)) :
    apply_vops g (p :: t) =
      apply_vops (((hsz p.2).reverse).foldl
        (fun st2 gn => applyGate st2 p.1 gn) g) t := rfl

theorem apply_vops_trivial (g : GraphState) (l : List (Nat × Rot))
    (hl : ∀ p ∈ l, p.2 = cliffordZero) : apply_vops g l = g := by
  induction l generalizing g with
  | nil => rfl
  | cons p t ih =>
    have hp : p.2 = cliffordZero := hl p (List.mem_cons_self p t)
    rw [apply_vops_cons, hp, hsz_cliffordZero]
    exact ih g (fun q hq => hl q (List.mem_cons_of_mem p hq))

theorem get_vops_trivial (g : GraphState)
    (hf : ∀ i ∈ g.nodeList,
      g.hollow i = false ∧ g.loop i = false ∧ g.sign i = false) :
    ∀ p ∈ (get_vops g).2, p.2 = cliffordZero := by
  intro p hp
  simp only [get_vops, List.mem_map] at hp
  obtain ⟨i, hi, hpe⟩ := hp
  obtain ⟨h1, h2, h3⟩ := hf i hi
  subst hpe
  simp [vopOf, h1, h2, h3]

theorem lookup_map_self {β : Type} (l : List Nat) (f : Nat → β) (i : Nat)
    (hi : i ∈ l) :
    List.lookup i (l.map (fun j => (j, f j))) = some (f i) := by
  induction l with
  | nil => cases hi
  | cons a t ih =>
    rw [List.map_cons]
    by_cases hia : i = a
    · subst hia
      simp [List.lookup]
    · have hit : i ∈ t := by
        rcases List.mem_cons.mp hi with he | hm
        · exact absurd he hia
        · exact hm
      have hba : (i == a) = false := beq_eq_false_iff_ne.mpr hia
      simpa [List.lookup, hba] using ih hit

/-- Concrete graph for the C1 counterexample: one isolated node `0` with only
the `sign` flag set. -/
def cg1 : GraphState := mkGraph [0] [] [] [] [0]

/-- Concrete graph for the C1 witness: two connected nodes, no flags set. -/
def cg1w : GraphState := mkGraph [0, 1] [(0, 1)] [] [] []

/-- C1, counterexample: the claim "apply_vops(get_vops()) leaves all three
decoration flags of every node unchanged" fails on a single isolated node `0`
whose `sign` flag is set: `get_vops` reads the flag back as the Clifford Z,
and `apply_vops` then applies Z once more, clearing the sign flag. -/
theorem claim_C1_counterexample :
    cg1.sign 0 = true ∧ (apply_vops cg1 (get_vops cg1).2).sign 0 = false := by
  constructor
  · decide
  · decide

/-- C1 (amended): `apply_vops(get_vops())` leaves the graph (in particular
all three decoration flags of every node) unchanged provided every node's
three flags are initially false; in general the readback applies each node's
operator a second time and may change flags. -/
theorem claim_C1_vops_roundtrip_amended (g : GraphState)
    (hf : ∀ i ∈ g.nodeList,
      g.hollow i = false ∧ g.loop i = false ∧ g.sign i = false) :
    apply_vops g (get_vops g).2 = g :=
  apply_vops_trivial g _ (get_vops_trivial g hf)

/-- C1, witness: the amended round-trip at a concrete two-node graph. -/
theorem claim_C1_witness : apply_vops cg1w (get_vops cg1w).2 = cg1w :=
  claim_C1_vops_roundtrip_amended cg1w (by decide)

/-- Concrete graph for the C2 counterexample: one isolated node `0` that is
hollow and has a loop, with `sign = false`. -/
def cg2 : GraphState := mkGraph [0] [] [0] [0] []

/-- Concrete graph for the C2 witness: nodes `0`, `1` joined by an edge. -/
def cg2w : GraphState := mkGraph [0, 1] [(0, 1)] [] [] []

/-- C2, counterexample: the claim "for every isolated node, measure_z returns
the integer value of the sign flag regardless of choice" fails on an isolated
hollow node with a loop: its fill status is 0 (E1 applies), so the code
returns `choice` — here 1 although the node's sign flag is false. -/
theorem claim_C2_counterexample :
    neighbors cg2 0 = [] ∧ cg2.sign 0 = false ∧
    (measure_z cg2 0 1).2 = Except.ok 1 := by
  refine ⟨by decide, by decide, rfl⟩

/-- C2 (amended): for a well-formed graph and choice in {0,1}, `measure_z`
returns `choice` whenever the node has at least one neighbor, and also for an
isolated node that is hollow with a loop (fill status 0); for any other
isolated node (not hollow, or hollow without loop) it returns the integer
value of the node's sign flag regardless of choice. -/
theorem claim_C2_measure_z_outcomes (g : GraphState) (n c : Nat) (hwf : WF g)
    (hn : n ∈ g.nodeList) (hv : c = 0 ∨ c = 1) :
    (neighbors g n ≠ [] → (measure_z g n c).2 = Except.ok c) ∧
    (neighbors g n = [] → g.hollow n = true → g.loop n = true →
      (measure_z g n c).2 = Except.ok c) ∧
    (neighbors g n = [] → ¬(g.hollow n = true ∧ g.loop n = true) →
      (measure_z g n c).2 = Except.ok (if g.sign n = true then 1 else 0)) := by
  refine ⟨?_, ?_, ?_⟩
  · intro hnb
    exact measure_z_snd_of_fill_zero g n c hv (fill_snd_ok g n hwf hn hnb)
  · intro _ hh hl
    exact measure_z_snd_of_fill_zero g n c hv (fill_hollow_loop_snd g n hh hl)
  · intro hnb hnot
    by_cases hh : g.hollow n = true
    · have hl : g.loop n = false := by
        cases hv2 : g.loop n
        · rfl
        · exact absurd ⟨hh, hv2⟩ hnot
      exact measure_z_snd_isolated g n c hv 1
        (fill_hollow_isolated g n hh hl hnb) (by decide) hnb
    · exact measure_z_snd_isolated g n c hv 2
        (fill_not_hollow_isolated g n (bool_eq_false_of_not hh) hnb)
        (by decide) hnb

/-- C2, witness: on the two-node graph with an edge, measuring node `0` with
choice 1 returns outcome 1. -/
theorem claim_C2_witness : (measure_z cg2w 0 1).2 = Except.ok 1 :=
  (claim_C2_measure_z_outcomes cg2w 0 1
    (mkGraph_wf _ _ _ _ _ (by decide) (by decide) (by decide))
    (by decide) (Or.inr rfl)).1 (by decide)

/-- Concrete graph for the C3 witness: one isolated node with no flags. -/
def cg3 : GraphState := mkGraph [0] [] [] [] []

/-- C3: `equivalent_fill_node` returns status 2 for a non-hollow isolated
node, status 0 for a non-hollow node with a neighbor, and status 1 for a
hollow, loopless, isolated node; in the status-1 and status-2 cases the graph
is returned completely unchanged. -/
theorem claim_C3_fill_statuses (g : GraphState) (n : Nat) :
    (g.hollow n = false → neighbors g n = [] →
      equivalent_fill_node g n = (g, Except.ok 2)) ∧
    (g.hollow n = false → neighbors g n ≠ [] →
      equivalent_fill_node g n = (g, Except.ok 0)) ∧
    (g.hollow n = true → g.loop n = false → neighbors g n = [] →
      equivalent_fill_node g n = (g, Except.ok 1)) :=
  ⟨fill_not_hollow_isolated g n, fill_not_hollow_connected g n,
    fill_hollow_isolated g n⟩

/-- C3, witness: the status-2 case at a concrete isolated filled node. -/
theorem claim_C3_witness : equivalent_fill_node cg3 0 = (cg3, Except.ok 2) :=
  (claim_C3_fill_statuses cg3 0).1 (by decide) (by decide)

/-- Concrete graph for the C4 witness: two stored nodes with no edge. -/
def cg4 : GraphState := mkGraph [0, 1] [] [] [] []

/-- C4: `equivalent_graph_e2` raises exactly when there is no edge between
the two nodes (checked in both orientations) or one of them has a loop, and
on every error path the graph is returned unchanged (all checks precede any
mutation). -/
theorem claim_C4_e2_precondition_errors (g : GraphState) (n1 n2 : Nat) :
    (isOk (equivalent_graph_e2 g n1 n2).2 = false ↔
      ((g.edge n1 n2 || g.edge n2 n1) = false ∨
        (g.loop n1 || g.loop n2) = true)) ∧
    (isOk (equivalent_graph_e2 g n1 n2).2 = false →
      (equivalent_graph_e2 g n1 n2).1 = g) :=
  ⟨e2_not_ok_iff g n1 n2, e2_error_state g n1 n2⟩

/-- C4, witness: E2 on two unconnected nodes errors and leaves the concrete
graph unchanged. -/
theorem claim_C4_witness :
    isOk (equivalent_graph_e2 cg4 0 1).2 = false ∧
    (equivalent_graph_e2 cg4 0 1).1 = cg4 :=
  ⟨(claim_C4_e2_precondition_errors cg4 0 1).1.mpr (Or.inl (by decide)),
    (claim_C4_e2_precondition_errors cg4 0 1).2
      ((claim_C4_e2_precondition_errors cg4 0 1).1.mpr (Or.inl (by decide)))⟩

/-- Concrete graph for the C5 witness: one isolated unflagged node. -/
def cg5 : GraphState := mkGraph [0] [] [] [] []

/-- C5: each of `measure_x`, `measure_y`, `measure_z`, whenever it returns
normally, leaves a graph in which the measured node no longer appears. -/
theorem claim_C5_measurement_removes_node (g : GraphState) (n c : Nat)
    (hnd : g.nodeList.Nodup) :
    (isOk (measure_x g n c).2 = true → n ∉ (measure_x g n c).1.nodeList) ∧
    (isOk (measure_y g n c).2 = true → n ∉ (measure_y g n c).1.nodeList) ∧
    (isOk (measure_z g n c).2 = true → n ∉ (measure_z g n c).1.nodeList) := by
  refine ⟨?_, ?_, fun hok => measure_z_removes g n c hnd hok⟩
  · intro hok
    unfold measure_x at hok ⊢
    split
    · next hv =>
      rw [if_pos hv] at hok
      split
      · simp only [remove_node_nodeList]
        intro hmem
        rw [List.Nodup.mem_erase_iff hnd] at hmem
        exact hmem.1 rfl
      · next hnb =>
        rw [if_neg hnb] at hok
        exact measure_z_removes (h g n) n c hnd hok
    · next hv =>
      rw [if_neg hv] at hok
      simp [isOk] at hok
  · intro hok
    unfold measure_y at hok ⊢
    split
    · next hv =>
      rw [if_pos hv] at hok
      have hnd2 : (h (z (s g n) n) n).nodeList.Nodup := by
        rw [h_nodeList, z_nodeList, s_nodeList]
        exact hnd
      exact measure_z_removes _ n c hnd2 hok
    · next hv =>
      rw [if_neg hv] at hok
      simp [isOk] at hok

/-- C5, witness: Z-measurement of the single node `0` succeeds and the
resulting graph no longer contains `0`. -/
theorem claim_C5_witness :
    isOk (measure_z cg5 0 0).2 = true ∧
    0 ∉ (measure_z cg5 0 0).1.nodeList :=
  ⟨rfl, (claim_C5_measurement_removes_node cg5 0 0 (by decide)).2.2 rfl⟩

/-- Concrete graph for the C6 witness: a path `1 – 0 – 2`. -/
def cg6 : GraphState := mkGraph [0, 1, 2] [(0, 1), (0, 2)] [] [] []

/-- C6: applying `local_complement(n)` twice restores the original edge set
(for any graph without a structural self-loop at `n`); moreover a single
application leaves the edges incident to `n` and all flags untouched. -/
theorem claim_C6_local_complement_involution (g : GraphState) (n : Nat)
    (hnn : g.edge n n = false) :
    (∀ a b, (local_complement (local_complement g n) n).edge a b = g.edge a b) ∧
    (∀ m, (local_complement g n).edge n m = g.edge n m ∧
      (local_complement g n).edge m n = g.edge m n) ∧
    (local_complement g n).hollow = g.hollow ∧
    (local_complement g n).loop = g.loop ∧
    (local_complement g n).sign = g.sign ∧
    (local_complement (local_complement g n) n).nodeList = g.nodeList :=
  ⟨lc_lc_edge g n hnn,
    fun m => ⟨lc_edge_row g n hnn m, lc_edge_col g n hnn m⟩,
    rfl, rfl, rfl, rfl⟩

/-- C6, witness: on the path `1 – 0 – 2`, complementing at `0` creates the
edge `1 – 2` and a second complementation removes it again. -/
theorem claim_C6_witness :
    (local_complement (local_complement cg6 0) 0).edge 1 2 = cg6.edge 1 2 ∧
    (local_complement cg6 0).edge 1 2 = true ∧ cg6.edge 1 2 = false :=
  ⟨(claim_C6_local_complement_involution cg6 0 (by decide)).1 1 2,
    by decide, by decide⟩

/-- Concrete graph for the C8 witness: edge `0 – 1`, node `0` hollow and
loopless, node `1` with a loop. -/
def cg8 : GraphState := mkGraph [0, 1] [(0, 1)] [0] [1] []

/-- C8: in the all-neighbors-have-loops branch of `equivalent_fill_node`
(node hollow and loopless, neighbor list `i0 :: t`, every neighbor looped),
neither E1 call can raise: the first neighbor has a loop by the branch
condition, and E1 on it advances the node, giving it `loop = true` before E1
is applied to the node itself. -/
theorem claim_C8_all_loop_branch_safe (g : GraphState) (n i0 : Nat)
    (t : List Nat) (hwf : WF g) (hh : g.hollow n = true)
    (hl : g.loop n = false) (hnb : neighbors g n = i0 :: t)
    (hall : ∀ x ∈ neighbors g n, g.loop x = true) :
    g.loop i0 = true ∧
    isOk (equivalent_graph_e1 g i0).2 = true ∧
    (equivalent_graph_e1 g i0).1.loop n = true ∧
    isOk (equivalent_graph_e1 (equivalent_graph_e1 g i0).1 n).2 = true := by
  have hi0mem : i0 ∈ neighbors g n := by
    rw [hnb]
    exact List.mem_cons_self i0 t
  have hi0loop : g.loop i0 = true := hall i0 hi0mem
  have hedge : g.edge n i0 = true := ((mem_neighbors g n i0).mp hi0mem).2
  have hnn : n ∈ g.nodeList := (hwf.mem_of_edge n i0 hedge).1
  have hnmem : n ∈ neighbors g i0 := by
    rw [mem_neighbors]
    refine ⟨hnn, ?_⟩
    rw [hwf.symm]
    exact hedge
  have hloopn : (equivalent_graph_e1 g i0).1.loop n = true := by
    rw [e1_loop_mem g i0 n hwf hi0loop hnmem, hl]
    rfl
  refine ⟨hi0loop, ?_, hloopn, ?_⟩
  · rw [e1_snd_iff]
    exact hi0loop
  · rw [e1_snd_iff]
    exact hloopn

/-- C8, witness: the branch safety at the concrete graph `cg8` with hollow
node `0` and looped neighbor `1`. -/
theorem claim_C8_witness :
    cg8.loop 1 = true ∧ isOk (equivalent_graph_e1 cg8 1).2 = true ∧
    (equivalent_graph_e1 cg8 1).1.loop 0 = true ∧
    isOk (equivalent_graph_e1 (equivalent_graph_e1 cg8 1).1 0).2 = true :=
  claim_C8_all_loop_branch_safe cg8 0 1 []
    (mkGraph_wf _ _ _ _ _ (by decide) (by decide) (by decide))
    (by decide) (by decide) (by decide) (by decide)

theorem z_sign_far (g : GraphState) (n x : Nat) (hx1 : x ≠ n)
    (hx2 : x ∉ neighbors g n) : (z g n).sign x = g.sign x := by
  unfold z
  split
  · simp only
    split
    · rw [flip_sign_sign_other _ _ _ hx1, foldl_flip_sign_sign_notmem _ _ _ hx2]
    · rw [foldl_flip_sign_sign_notmem _ _ _ hx2]
  · rw [flip_sign_sign_other _ _ _ hx1]

/-- C9: `z(n)` modifies only sign flags (of `n` and/or its neighbors): it
never changes the node set, the edge set, or any `hollow` or `loop` flag,
and the sign of any node other than `n` and its neighbors is untouched. -/
theorem claim_C9_z_frame (g : GraphState) (n : Nat) :
    (z g n).nodeList = g.nodeList ∧ (z g n).edge = g.edge ∧
    (z g n).hollow = g.hollow ∧ (z g n).loop = g.loop ∧
    (∀ x, x ≠ n → x ∉ neighbors g n → (z g n).sign x = g.sign x) :=
  ⟨z_nodeList g n, z_edge g n, z_hollow g n, z_loop g n,
    fun x hx1 hx2 => z_sign_far g n x hx1 hx2⟩

/-- Concrete graph for the C9 witness. -/
def cg9 : GraphState := mkGraph [0, 1, 2] [(0, 1)] [0] [] [2]

/-- C9, witness: the frame property of `z` at a concrete graph, including
sign preservation at the far node `2`. -/
theorem claim_C9_witness :
    (z cg9 0).edge = cg9.edge ∧ (z cg9 0).loop = cg9.loop ∧
    (z cg9 0).sign 2 = cg9.sign 2 :=
  ⟨(claim_C9_z_frame cg9 0).2.1, (claim_C9_z_frame cg9 0).2.2.2.1,
    (claim_C9_z_frame cg9 0).2.2.2.2 2 (by decide) (by decide)⟩

/-- C10: `get_vops` is a pure read — the translated state component is the
unchanged input graph — and it maps a node with all three flags false to
Clifford index 0, the identity. -/
theorem claim_C10_get_vops_pure (g : GraphState) (i : Nat)
    (hi : i ∈ g.nodeList)
    (hfl : g.hollow i = false ∧ g.loop i = false ∧ g.sign i = false) :
    (get_vops g).1 = g ∧
    List.lookup i (get_vops g).2 = some cliffordZero := by
  refine ⟨rfl, ?_⟩
  obtain ⟨h1, h2, h3⟩ := hfl
  have hlk := lookup_map_self g.nodeList (vopOf g) i hi
  rw [show (get_vops g).2 = g.nodeList.map (fun j => (j, vopOf g j)) from rfl,
    hlk]
  simp [vopOf, h1, h2, h3]

/-- Concrete graph for the C10 witness. -/
def cg10 : GraphState := mkGraph [0] [] [] [] []

/-- C10, witness: purity of `get_vops` and the identity readback at a
concrete unflagged node. -/
theorem claim_C10_witness :
    (get_vops cg10).1 = cg10 ∧
    List.lookup 0 (get_vops cg10).2 = some cliffordZero :=
  claim_C10_get_vops_pure cg10 0 (by decide) (by decide)

theorem adv_fold_sign_self (g : GraphState) (n : Nat) (hwf : WF g) :
    ((neighbors (local_complement g n) n).foldl advance
      (local_complement g n)).sign n = g.sign n := by
  rw [foldl_advance_sign_notmem _ _ _
    (by
      rw [lc_neighbors_self g n (hwf.irrefl n)]
      exact not_self_mem_neighbors g n (hwf.irrefl n)), lc_sign]

/-- C7: for a hollow, loopless node `n`, `s(n)` performs
`local_complement(n)`, then advances (toggles the loop of) every
post-complementation neighbor of `n`, and, if `n`'s sign flag is set,
additionally toggles the sign of every neighbor; nothing else changes. -/
theorem claim_C7_s_hollow_noloop (g : GraphState) (n : Nat) (hwf : WF g)
    (hh : g.hollow n = true) (hl : g.loop n = false) :
    neighbors (local_complement g n) n = neighbors g n ∧
    (s g n).nodeList = g.nodeList ∧
    (s g n).edge = (local_complement g n).edge ∧
    (s g n).hollow = g.hollow ∧
    (∀ x, x ∈ neighbors (local_complement g n) n →
      (s g n).loop x = !g.loop x) ∧
    (∀ x, x ∉ neighbors (local_complement g n) n →
      (s g n).loop x = g.loop x) ∧
    (∀ x, x ∈ neighbors (local_complement g n) n →
      (s g n).sign x =
        (if g.sign n = true then
          !(if g.loop x = true then !g.sign x else g.sign x)
        else (if g.loop x = true then !g.sign x else g.sign x))) := by
  have hnn : g.edge n n = false := hwf.irrefl n
  have hNb : neighbors (local_complement g n) n = neighbors g n :=
    lc_neighbors_self g n hnn
  have hnd2 : (neighbors (local_complement g n) n).Nodup := by
    rw [hNb]
    exact neighbors_nodup g n hwf.nodup
  have hsEq : s g n =
      (if ((neighbors (local_complement g n) n).foldl advance
            (local_complement g n)).sign n = true then
        (neighbors ((neighbors (local_complement g n) n).foldl advance
            (local_complement g n)) n).foldl flip_sign
          ((neighbors (local_complement g n) n).foldl advance
            (local_complement g n))
      else
        (neighbors (local_complement g n) n).foldl advance
          (local_complement g n)) := by
    unfold s
    rw [if_pos hh, if_neg (by rw [hl]; exact Bool.false_ne_true)]
  have hsn : ((neighbors (local_complement g n) n).foldl advance
      (local_complement g n)).sign n = g.sign n := adv_fold_sign_self g n hwf
  have hv2 : neighbors ((neighbors (local_complement g n) n).foldl advance
      (local_complement g n)) n = neighbors (local_complement g n) n :=
    neighbors_congr (local_complement g n) _ n (foldl_advance_nodeList _ _)
      (fun m => by rw [foldl_advance_edge])
  refine ⟨hNb, ?_, ?_, ?_, ?_, ?_, ?_⟩
  · rw [hsEq]
    split
    · rw [foldl_flip_sign_nodeList, foldl_advance_nodeList, lc_nodeList]
    · rw [foldl_advance_nodeList, lc_nodeList]
  · rw [hsEq]
    split
    · rw [foldl_flip_sign_edge, foldl_advance_edge]
    · rw [foldl_advance_edge]
  · rw [hsEq]
    split
    · rw [foldl_flip_sign_hollow, foldl_advance_hollow, lc_hollow]
    · rw [foldl_advance_hollow, lc_hollow]
  · intro x hx
    rw [hsEq]
    split
    · rw [foldl_flip_sign_loop, foldl_advance_loop_mem _ _ _ hnd2 hx, lc_loop]
    · rw [foldl_advance_loop_mem _ _ _ hnd2 hx, lc_loop]
  · intro x hx
    rw [hsEq]
    split
    · rw [foldl_flip_sign_loop, foldl_advance_loop_notmem _ _ _ hx, lc_loop]
    · rw [foldl_advance_loop_notmem _ _ _ hx, lc_loop]
  · intro x hx
    rw [hsEq]
    split
    · next hcond =>
      rw [hsn] at hcond
      rw [if_pos hcond, hv2, foldl_flip_sign_sign_mem _ _ _ hnd2 hx,
        foldl_advance_sign_mem _ _ _ hnd2 hx, lc_loop, lc_sign]
    · next hcond =>
      rw [hsn] at hcond
      rw [if_neg hcond, foldl_advance_sign_mem _ _ _ hnd2 hx, lc_loop, lc_sign]

/-- Concrete graph for the C7 witness: the three-node path `0 – 1 – 2` with
node `1` hollow, no loop, no sign. -/
def cg7 : GraphState := mkGraph [0, 1, 2] [(0, 1), (1, 2)] [1] [] []

/-- C7, witness: end-to-end scenario C — `s(1)` on the path `0 – 1 – 2` with
node 1 hollow and loopless makes `0` and `2` adjacent and sets `loop = true`
on both `0` and `2`. -/
theorem claim_C7_witness :
    (s cg7 1).edge = (local_complement cg7 1).edge ∧
    (local_complement cg7 1).edge 0 2 = true ∧
    (s cg7 1).loop 0 = !cg7.loop 0 ∧ (s cg7 1).loop 2 = !cg7.loop 2 ∧
    cg7.loop 0 = false ∧ cg7.loop 2 = false := by
  have hth := claim_C7_s_hollow_noloop cg7 1
    (mkGraph_wf _ _ _ _ _ (by decide) (by decide) (by decide))
    (by decide) (by decide)
  exact ⟨hth.2.2.1, by decide, hth.2.2.2.2.1 0 (by decide),
    hth.2.2.2.2.1 2 (by decide), by decide, by decide⟩

end GraphSim
